import Mathlib

/-!
Shallow embedding of the ADEME Base Carbone CSV ingestion pipeline
(`apps/core/services/ademe_csv_parser.py`, class `ADEMECSVParser`).

Strings are modelled by Lean `String`; Python `str.strip()`, `str.lower()`
and the substring operator `in` are modelled by `pyStrip`, `pyLower` and
`strContains` below, restricted to the Latin-1 character range that the
pipeline actually handles (the upstream file is decoded as `latin-1`).
Python `Decimal` values are modelled exactly by `ℚ`; `Decimal` string
parsing is modelled by `pyDecimal` (sign, digits, optional fractional
part, optional exponent).  The special values `NaN`/`Infinity`, which
`Decimal` would accept, are rejected by `pyDecimal`; the source rejects
the corresponding rows as well (`NaN` raises `InvalidOperation` at the
range comparison, which the source catches, and infinities fail the
range check), so the observable behaviour of the row validator agrees.
CSV text is abstracted at the `csv.DictReader` boundary: a parsed row is
a key/value association list (`RawRow`), and theorems quantify over the
row lists that the reader produces.
-/

namespace AdemeCsv

/-- Whitespace stripped by Python `str.strip()`, restricted to the
characters that Latin-1 decoded text can contain. -/
def pyIsSpace (c : Char) : Bool :=
  c == ' ' || c == '\t' || c == '\n' || c == '\r' ||
  c == '\x0b' || c == '\x0c' || c == '\x85' || c == '\xa0'

/-- Strip leading and trailing whitespace from a character list. -/
def stripChars (l : List Char) : List Char :=
  ((l.dropWhile pyIsSpace).reverse.dropWhile pyIsSpace).reverse

/-- Python `str.strip()`. -/
def pyStrip (s : String) : String := ⟨stripChars s.data⟩

/-- Python `str.lower()` on the Latin-1 range: ASCII uppercase and the
Latin-1 accented uppercase block (except the multiplication sign) map to
their lowercase counterparts 32 code points higher. -/
def pyLowerChar (c : Char) : Char :=
  if 'A' ≤ c ∧ c ≤ 'Z' then Char.ofNat (c.toNat + 32)
  else if 'À' ≤ c ∧ c ≤ 'Þ' ∧ c ≠ '×' then Char.ofNat (c.toNat + 32)
  else c

/-- Python `str.lower()`. -/
def pyLower (s : String) : String := ⟨s.data.map pyLowerChar⟩

/-- Python `needle in hay` substring test. -/
def strContains (hay needle : String) : Bool :=
  decide (needle.data <:+: hay.data)

/-- Python `value_str.replace(",", ".")`. -/
def commaToDot (s : String) : String :=
  ⟨s.data.map fun c => if c = ',' then '.' else c⟩

/-- Numeric value of a list of decimal digit characters (empty list is 0). -/
def digitsToNat (ds : List Char) : Nat :=
  ds.foldl (fun n c => 10 * n + (c.toNat - 48)) 0

/-- Consume an optional leading sign; returns (isNegative, rest). -/
def parseSign : List Char → Bool × List Char
  | '-' :: cs => (true, cs)
  | '+' :: cs => (false, cs)
  | cs => (false, cs)

/-- Split at the first '.' if any. -/
def splitAtDot (cs : List Char) : List Char × Option (List Char) :=
  match cs.span (fun c => c != '.') with
  | (pre, []) => (pre, none)
  | (pre, _ :: post) => (pre, some post)

/-- Split at the first exponent marker 'e' or 'E' if any. -/
def splitAtExp (cs : List Char) : List Char × Option (List Char) :=
  match cs.span (fun c => c != 'e' && c != 'E') with
  | (pre, []) => (pre, none)
  | (pre, _ :: post) => (pre, some post)

/-- Python `Decimal(s)` for finite decimal literals, as an exact rational:
optional sign, digits with an optional fractional part (at least one digit
overall), optional exponent.  Returns `none` when `Decimal` would raise
`InvalidOperation` (and on the special values, see the module docstring). -/
def pyDecimal (s : String) : Option ℚ :=
  let (mantCs, expCs) := splitAtExp s.data
  let (neg, mcs) := parseSign mantCs
  let (ip, fpOpt) := splitAtDot mcs
  let fp := fpOpt.getD []
  if ip.all Char.isDigit && fp.all Char.isDigit && !(ip.isEmpty && fp.isEmpty) then
    let mant : ℚ := (digitsToNat (ip ++ fp) : ℚ) / 10 ^ fp.length
    match expCs with
    | none => some (if neg then -mant else mant)
    | some ecs =>
      let (eneg, eds) := parseSign ecs
      if !eds.isEmpty && eds.all Char.isDigit then
        let scaled := if eneg then mant / 10 ^ digitsToNat eds else mant * 10 ^ digitsToNat eds
        some (if neg then -scaled else scaled)
      else none
  else none

/-- One row produced by `csv.DictReader`: column label to cell text. -/
abbrev RawRow := List (String × String)

/-- Python `row.get(key, "")`. -/
def rowGet (row : RawRow) (key : String) : String :=
  (row.lookup key).getD ""

/-- `row.get("Nom base français", "").strip()`. -/
def rowName (row : RawRow) : String := pyStrip (rowGet row "Nom base français")

/-- `row.get("Unité français", "").strip()`. -/
def rowUnit (row : RawRow) : String := pyStrip (rowGet row "Unité français")

/-- `row.get("Total poste non décomposé", "").strip()`. -/
def rowValueStr (row : RawRow) : String := pyStrip (rowGet row "Total poste non décomposé")

/-- `row.get("Statut de l\x27élément", "").strip()`. -/
def rowStatus (row : RawRow) : String := pyStrip (rowGet row "Statut de l\x27élément")

/-- `row.get("Localisation géographique", "").strip()`. -/
def rowLocation (row : RawRow) : String := pyStrip (rowGet row "Localisation géographique")

/-- `row.get("Catégorie de l\x27élément", "").strip()`. -/
def rowCategory (row : RawRow) : String := pyStrip (rowGet row "Catégorie de l\x27élément")

/-- The canonical factor record built by `_extract_factor_from_row`. -/
structure FactorRecord where
  name : String
  unit : String
  value : ℚ
  category : String
  status : String
  location : String
deriving DecidableEq

/-- One entry of `SECTOR_MAPPING`: keyword list and category list. -/
structure SectorDef where
  keywords : List String
  categories : List String
deriving DecidableEq

/-- `SECTOR_MAPPING["vehicles"]`. -/
def vehiclesDef : SectorDef :=
  ⟨["essence", "sp95", "sp98", "gazole", "diesel", "voiture", "véhicule"],
   ["Transport routier", "Transports"]⟩

/-- `SECTOR_MAPPING["buildings"]`. -/
def buildingsDef : SectorDef :=
  ⟨["électricité", "gaz naturel", "chauffage", "fioul", "climatisation"],
   ["Energie", "Chauffage urbain"]⟩

/-- `SECTOR_MAPPING["food"]`. -/
def foodDef : SectorDef :=
  ⟨["viande", "poisson", "légumes", "fruits", "pain", "lait", "fromage"],
   ["Alimentation"]⟩

/-- `SECTOR_MAPPING["purchases"]`. -/
def purchasesDef : SectorDef :=
  ⟨["papier", "carton", "mobilier", "ordinateur", "textile", "fourniture"],
   ["Produits", "Services"]⟩

/-- The class attribute `ADEMECSVParser.SECTOR_MAPPING`, in source order. -/
def SECTOR_MAPPING : List (String × SectorDef) :=
  [("vehicles", vehiclesDef), ("buildings", buildingsDef),
   ("food", foodDef), ("purchases", purchasesDef)]

/-- The tail of `_extract_factor_from_row` from `value = Decimal(...)` on:
parse the normalized value string, apply the range guard, and build the
record.  Both parse failure and the `InvalidOperation` raised by a `NaN`
comparison are caught in the source and collapse to `none` here. -/
def valueTail (row : RawRow) : Option FactorRecord :=
  (pyDecimal (commaToDot (rowValueStr row))).bind fun value =>
    if value ≤ 0 ∨ value > 10000 then none
    else some ⟨rowName row, rowUnit row, value, rowCategory row, rowStatus row, rowLocation row⟩

/-- `ADEMECSVParser._extract_factor_from_row`.  The inner
`if location.strip():` of the source is kept as the nested conditional;
since `location` is already stripped it always fires in that branch
(see `pyStrip_idem` below). -/
def _extract_factor_from_row (row : RawRow) : Option FactorRecord :=
  if rowName row = "" ∨ rowValueStr row = "" then none
  else if rowStatus row ≠ "" ∧ strContains (pyLower (rowStatus row)) "archivé" = true then none
  else if rowLocation row ≠ "" ∧ strContains (pyLower (rowLocation row)) "france" = false ∧
            pyLower (rowLocation row) ≠ "fr" then
    if pyStrip (rowLocation row) ≠ "" then none else valueTail row
  else valueTail row

/-- `ADEMECSVParser._matches_sector`. -/
def _matches_sector (factor : FactorRecord) (sector : String) : Bool :=
  match SECTOR_MAPPING.lookup sector with
  | none => false
  | some mapping =>
    (mapping.keywords.any fun keyword => strContains (pyLower factor.name) (pyLower keyword)) ||
    (mapping.categories.any fun cat => strContains (pyLower factor.category) (pyLower cat))

/-- Keys of a Python dict built by a comprehension over a list: first
occurrence order, duplicates collapsed onto the first occurrence. -/
def dedupGo : List String → List String → List String
  | [], _ => []
  | s :: rest, seen => if s ∈ seen then dedupGo rest seen else s :: dedupGo rest (s :: seen)

/-- Key list of `{sector: [] for sector in sectors}`. -/
def dedupKeepFirst (l : List String) : List String := dedupGo l []

/-- `result = {sector: [] for sector in sectors}` as an ordered map. -/
def initResult (sectors : List String) : List (String × List FactorRecord) :=
  (dedupKeepFirst sectors).map fun s => (s, [])

/-- `result[sector].append(factor)`: update the (unique) entry with that key. -/
def appendAt (m : List (String × List FactorRecord)) (s : String) (f : FactorRecord) :
    List (String × List FactorRecord) :=
  m.map fun p => if p.1 = s then (p.1, p.2 ++ [f]) else p

/-- The inner `for sector in sectors:` loop of `parse_csv` for one
accepted record. -/
def processRow (sectors : List String) (f : FactorRecord)
    (m : List (String × List FactorRecord)) : List (String × List FactorRecord) :=
  sectors.foldl (fun acc sector => if _matches_sector f sector then appendAt acc sector f else acc) m

/-- One iteration of the row loop of `parse_csv`. -/
def parseStep (sectors : List String) (m : List (String × List FactorRecord))
    (row : RawRow) : List (String × List FactorRecord) :=
  match _extract_factor_from_row row with
  | none => m
  | some f => processRow sectors f m

/-- `ADEMECSVParser.parse_csv`, over the row list produced by the CSV
reader; `none` models the `sectors=None` default. -/
def parse_csv (rows : List RawRow) (sectors : Option (List String)) :
    List (String × List FactorRecord) :=
  let secs := sectors.getD (SECTOR_MAPPING.map Prod.fst)
  rows.foldl (parseStep secs) (initResult secs)

/-- Specification-side description of one sector's output: the accepted
records, in input row order, that match the sector. -/
def sectorCanonicalList (rows : List RawRow) (sector : String) : List FactorRecord :=
  (rows.filterMap _extract_factor_from_row).filter fun f => _matches_sector f sector

/-- The location filter as the spec states it: empty, or lower-cased text
containing "france", or lower-cased text equal to "fr". -/
def locationOk (loc : String) : Bool :=
  loc == "" || strContains (pyLower loc) "france" || pyLower loc == "fr"

/-- Error taxonomy of `download_csv` (spec section 7). -/
inductive DownloadError where
  | networkError
  | payloadTooLarge
deriving DecidableEq

/-- A completed HTTP exchange as `download_csv` observes it: status code,
optional declared `Content-Length`, and the raw body bytes. -/
structure HttpResponse where
  status : Nat
  contentLength : Option Nat
  body : List Nat

/-- Python `bytes.decode("latin-1")`: byte b maps to code point b; it
never fails. -/
def latin1Decode (body : List Nat) : String :=
  ⟨body.map fun b => Char.ofNat (b % 256)⟩

/-- `self.max_size = 50 * 1024 * 1024`. -/
def max_size : Nat := 50 * 1024 * 1024

/-- `ADEMECSVParser.download_csv`: `raise_for_status` (4xx/5xx becomes a
network error), then the declared-size check against `max_size`, then the
full body is decoded.  Note the source checks only the declared
`Content-Length`; the actual body size is never compared to the bound. -/
def download_csv (resp : HttpResponse) : Except DownloadError String :=
  if 400 ≤ resp.status then .error .networkError
  else
    match resp.contentLength with
    | some n => if max_size < n then .error .payloadTooLarge else .ok (latin1Decode resp.body)
    | none => .ok (latin1Decode resp.body)

/-- `ADEMECSVParser.get_factors_for_sector`: download, parse for the one
sector, and return `result.get(sector, [])`.  `reader` is the
`csv.DictReader` boundary (text to row list). -/
def get_factors_for_sector (reader : String → List RawRow) (resp : HttpResponse)
    (sector : String) : Except DownloadError (List FactorRecord) :=
  (download_csv resp).map fun content =>
    ((parse_csv (reader content) (some [sector])).lookup sector).getD []

/-- A concrete valid CSV row: diesel fuel, value "2,76", no status,
location or category (absent columns read back as the empty string). -/
def demoRow : RawRow :=
  [("Nom base français", "gazole"), ("Total poste non décomposé", "2,76")]

/-- The canonical record that `_extract_factor_from_row` builds from
`demoRow`. -/
def demoFactor : FactorRecord := ⟨"gazole", "", 69 / 25, "", "", ""⟩

/-- A row whose location is non-empty and not France-designating. -/
def germanyRow : RawRow :=
  [("Nom base français", "Truc"), ("Total poste non décomposé", "1"),
   ("Localisation géographique", "Allemagne")]

/-- A row whose status is an upper-case variant of the archived marker. -/
def archivedRow : RawRow :=
  [("Nom base français", "x"), ("Total poste non décomposé", "1"),
   ("Statut de l\x27élément", "ARCHIVÉ")]

/-- A 2xx response with no declared Content-Length whose actual body is
one byte beyond the configured maximum size. -/
def oversizedResponse : HttpResponse :=
  ⟨200, none, List.replicate (max_size + 1) 65⟩

/-- A 2xx response with an empty body and no declared length. -/
def emptyResponse : HttpResponse := ⟨200, none, []⟩

/-! ### Basic lemmas about the string primitives -/

theorem stripChars_eq_rdrop (l : List Char) :
    stripChars l = List.rdropWhile pyIsSpace (l.dropWhile pyIsSpace) := rfl

theorem dropWhile_head_false {p : Char → Bool} :
    ∀ (l : List Char) (b : Char) (x : List Char), List.dropWhile p l = b :: x → p b = false := by
  intro l
  induction l with
  | nil => intro b x h; simp [List.dropWhile] at h
  | cons a t ih =>
    intro b x h
    rw [List.dropWhile_cons] at h
    by_cases hp : p a
    · exact ih b x (by simpa [hp] using h)
    · rw [if_neg (by simp [hp])] at h
      cases h
      simpa using hp

theorem dropWhile_stripChars (l : List Char) :
    List.dropWhile pyIsSpace (stripChars l) = stripChars l := by
  rw [stripChars_eq_rdrop]
  cases hB : List.rdropWhile pyIsSpace (List.dropWhile pyIsSpace l) with
  | nil => simp
  | cons b t =>
    have hpre : List.rdropWhile pyIsSpace (List.dropWhile pyIsSpace l) <+:
        List.dropWhile pyIsSpace l := List.rdropWhile_prefix _ _
    rw [hB] at hpre
    obtain ⟨r, hr⟩ := hpre
    have hb : pyIsSpace b = false :=
      dropWhile_head_false l b (t ++ r) (by rw [← hr]; simp)
    simp [List.dropWhile_cons, hb]

theorem stripChars_idem (l : List Char) : stripChars (stripChars l) = stripChars l := by
  rw [stripChars_eq_rdrop (stripChars l), dropWhile_stripChars, stripChars_eq_rdrop,
    List.rdropWhile_idempotent]

theorem pyStrip_idem (s : String) : pyStrip (pyStrip s) = pyStrip s := by
  show (⟨stripChars (stripChars s.data)⟩ : String) = ⟨stripChars s.data⟩
  rw [stripChars_idem]

theorem rowLocation_strip (row : RawRow) : pyStrip (rowLocation row) = rowLocation row :=
  pyStrip_idem (rowGet row "Localisation géographique")

/-! ### Lemmas about association-list lookup -/

theorem lookup_cons_eq {β : Type} (a k : String) (b : β) (es : List (String × β)) :
    List.lookup a ((k, b) :: es) = if a = k then some b else List.lookup a es := by
  by_cases h : a = k
  · simp [List.lookup, h]
  · have hb : (a == k) = false := beq_eq_false_iff_ne.mpr h
    simp [List.lookup, hb, h]

theorem lookup_mem {β : Type} :
    ∀ (l : List (String × β)) (s : String) (d : β), l.lookup s = some d → (s, d) ∈ l := by
  intro l
  induction l with
  | nil => intro s d h; simp [List.lookup] at h
  | cons p t ih =>
    intro s d h
    obtain ⟨k, b⟩ := p
    rw [lookup_cons_eq] at h
    by_cases hk : s = k
    · rw [if_pos hk] at h
      cases h
      subst hk
      exact List.mem_cons_self _ _
    · rw [if_neg hk] at h
      exact List.mem_cons_of_mem _ (ih s d h)

/-! ### Lemmas about the result map operations -/

theorem appendAt_cons (k : String) (v : List FactorRecord) (t : List (String × List FactorRecord))
    (a : String) (f : FactorRecord) :
    appendAt ((k, v) :: t) a f = (k, if k = a then v ++ [f] else v) :: appendAt t a f := by
  by_cases h : k = a <;> simp [appendAt, h]

theorem lookup_appendAt (m : List (String × List FactorRecord)) (s a : String) (f : FactorRecord) :
    (appendAt m a f).lookup s = (m.lookup s).map fun v => if s = a then v ++ [f] else v := by
  induction m with
  | nil => simp [appendAt]
  | cons p t ih =>
    obtain ⟨k, v⟩ := p
    rw [appendAt_cons, lookup_cons_eq, lookup_cons_eq]
    by_cases hs : s = k
    · subst hs
      simp
    · simp [hs, ih]

theorem keys_appendAt (m : List (String × List FactorRecord)) (a : String) (f : FactorRecord) :
    (appendAt m a f).map Prod.fst = m.map Prod.fst := by
  induction m with
  | nil => rfl
  | cons p t ih =>
    obtain ⟨k, v⟩ := p
    rw [appendAt_cons]
    simp [ih]

theorem processRow_cons (a : String) (secs : List String) (f : FactorRecord)
    (m : List (String × List FactorRecord)) :
    processRow (a :: secs) f m =
      processRow secs f (if _matches_sector f a then appendAt m a f else m) := rfl

theorem keys_processRow (secs : List String) (f : FactorRecord) :
    ∀ m, (processRow secs f m).map Prod.fst = m.map Prod.fst := by
  induction secs with
  | nil => intro m; rfl
  | cons a secs ih =>
    intro m
    rw [processRow_cons, ih]
    by_cases hm : _matches_sector f a
    · rw [if_pos hm, keys_appendAt]
    · rw [if_neg hm]

theorem lookup_processRow (secs : List String) (f : FactorRecord) (s : String)
    (hnd : secs.Nodup) :
    ∀ m, (processRow secs f m).lookup s =
      (m.lookup s).map fun v => if s ∈ secs ∧ _matches_sector f s = true then v ++ [f] else v := by
  induction secs with
  | nil =>
    intro m
    show m.lookup s = (m.lookup s).map
      fun v => if s ∈ ([] : List String) ∧ _matches_sector f s = true then v ++ [f] else v
    cases m.lookup s <;> simp
  | cons a secs ih =>
    intro m
    have hnd' : secs.Nodup := hnd.of_cons
    have hna : a ∉ secs := (List.nodup_cons.mp hnd).1
    rw [processRow_cons, ih hnd']
    by_cases hm : _matches_sector f a
    · rw [if_pos hm, lookup_appendAt]
      cases m.lookup s with
      | none => simp
      | some v =>
        by_cases hsa : s = a
        · subst hsa
          have hns : s ∉ secs := hna
          simp [hns, hm]
        · simp [hsa, List.mem_cons]
    · rw [if_neg hm]
      cases m.lookup s with
      | none => simp
      | some v =>
        by_cases hsa : s = a
        · subst hsa
          have hmf : _matches_sector f s = false := by
            cases h : _matches_sector f s
            · rfl
            · exact absurd h hm
          simp [hmf]
        · simp [hsa, List.mem_cons]

theorem lookup_processRow_noMatch (secs : List String) (f : FactorRecord) (s : String)
    (h : _matches_sector f s = false) :
    ∀ m, (processRow secs f m).lookup s = m.lookup s := by
  induction secs with
  | nil => intro m; rfl
  | cons a secs ih =>
    intro m
    rw [processRow_cons, ih]
    by_cases hm : _matches_sector f a
    · rw [if_pos hm, lookup_appendAt]
      by_cases hsa : s = a
      · subst hsa
        rw [h] at hm
        exact absurd hm (by simp)
      · cases m.lookup s <;> simp [hsa]
    · rw [if_neg hm]

/-! ### Lemmas about the row fold of `parse_csv` -/

theorem keys_foldl (secs : List String) (rows : List RawRow) :
    ∀ m, ((rows.foldl (parseStep secs) m).map Prod.fst) = m.map Prod.fst := by
  induction rows with
  | nil => intro m; rfl
  | cons row rest ih =>
    intro m
    rw [List.foldl_cons, ih]
    show (parseStep secs m row).map Prod.fst = m.map Prod.fst
    unfold parseStep
    cases _extract_factor_from_row row with
    | none => rfl
    | some f => exact keys_processRow secs f m

theorem lookup_foldl (secs : List String) (s : String) (hnd : secs.Nodup) (hs : s ∈ secs) :
    ∀ (rows : List RawRow) (m : List (String × List FactorRecord)) (l : List FactorRecord),
      m.lookup s = some l →
      (rows.foldl (parseStep secs) m).lookup s = some (l ++ sectorCanonicalList rows s) := by
  intro rows
  induction rows with
  | nil =>
    intro m l h
    simpa [sectorCanonicalList] using h
  | cons row rest ih =>
    intro m l h
    rw [List.foldl_cons]
    cases hex : _extract_factor_from_row row with
    | none =>
      have hstep : parseStep secs m row = m := by unfold parseStep; rw [hex]
      rw [hstep, ih m l h]
      simp [sectorCanonicalList, List.filterMap_cons, hex]
    | some f =>
      have hstep : parseStep secs m row = processRow secs f m := by unfold parseStep; rw [hex]
      have h2 : (processRow secs f m).lookup s =
          some (if _matches_sector f s = true then l ++ [f] else l) := by
        rw [lookup_processRow secs f s hnd m, h]
        by_cases hm : _matches_sector f s = true <;> simp [hs, hm]
      rw [hstep, ih _ _ h2]
      by_cases hm : _matches_sector f s = true <;>
        simp [sectorCanonicalList, List.filterMap_cons, hex, List.filter_cons, hm]

theorem lookup_foldl_noMatch (secs : List String) (s : String)
    (hm : ∀ f, _matches_sector f s = false) :
    ∀ (rows : List RawRow) (m : List (String × List FactorRecord)),
      (rows.foldl (parseStep secs) m).lookup s = m.lookup s := by
  intro rows
  induction rows with
  | nil => intro m; rfl
  | cons row rest ih =>
    intro m
    rw [List.foldl_cons, ih]
    show (parseStep secs m row).lookup s = m.lookup s
    unfold parseStep
    cases _extract_factor_from_row row with
    | none => rfl
    | some f => exact lookup_processRow_noMatch secs f s (hm f) m

/-! ### Lemmas about the initial result map -/

theorem dedupGo_cons_mem (a : String) (t seen : List String) (h : a ∈ seen) :
    dedupGo (a :: t) seen = dedupGo t seen := by simp [dedupGo, h]

theorem dedupGo_cons_not_mem (a : String) (t seen : List String) (h : a ∉ seen) :
    dedupGo (a :: t) seen = a :: dedupGo t (a :: seen) := by simp [dedupGo, h]

theorem mem_dedupGo (s : String) :
    ∀ (l seen : List String), s ∈ dedupGo l seen ↔ s ∈ l ∧ s ∉ seen := by
  intro l
  induction l with
  | nil => intro seen; simp [dedupGo]
  | cons a t ih =>
    intro seen
    by_cases ha : a ∈ seen
    · rw [dedupGo_cons_mem a t seen ha, ih seen]
      constructor
      · rintro ⟨h1, h2⟩
        exact ⟨List.mem_cons_of_mem _ h1, h2⟩
      · rintro ⟨h1, h2⟩
        rcases List.mem_cons.mp h1 with h | h
        · subst h; exact absurd ha h2
        · exact ⟨h, h2⟩
    · rw [dedupGo_cons_not_mem a t seen ha]
      simp only [List.mem_cons, ih (a :: seen)]
      constructor
      · rintro (h | ⟨h1, h2⟩)
        · subst h
          exact ⟨Or.inl rfl, ha⟩
        · refine ⟨Or.inr h1, fun hs => h2 ?_⟩
          exact Or.inr hs
      · rintro ⟨h1, h2⟩
        rcases h1 with h | h
        · exact Or.inl h
        · by_cases hsa : s = a
          · exact Or.inl hsa
          · refine Or.inr ⟨h, fun hs => ?_⟩
            rcases hs with h' | h'
            · exact hsa h'
            · exact h2 h'

theorem dedupGo_of_nodup :
    ∀ (l seen : List String), l.Nodup → (∀ x ∈ l, x ∉ seen) → dedupGo l seen = l := by
  intro l
  induction l with
  | nil => intro seen _ _; rfl
  | cons a t ih =>
    intro seen hnd hdisj
    have ha : a ∉ seen := hdisj a (List.mem_cons_self _ _)
    rw [dedupGo_cons_not_mem a t seen ha]
    congr 1
    refine ih (a :: seen) hnd.of_cons fun x hx => ?_
    intro hmem
    rcases List.mem_cons.mp hmem with h | h
    · subst h
      exact (List.nodup_cons.mp hnd).1 hx
    · exact hdisj x (List.mem_cons_of_mem _ hx) h

theorem dedupKeepFirst_of_nodup (l : List String) (h : l.Nodup) : dedupKeepFirst l = l :=
  dedupGo_of_nodup l [] h (by simp)

theorem mem_dedupKeepFirst (s : String) (l : List String) : s ∈ dedupKeepFirst l ↔ s ∈ l := by
  simp [dedupKeepFirst, mem_dedupGo]

theorem lookup_map_nil (s : String) :
    ∀ ds : List String, s ∈ ds →
      (ds.map fun t => (t, ([] : List FactorRecord))).lookup s = some [] := by
  intro ds
  induction ds with
  | nil => intro h; simp at h
  | cons a t ih =>
    intro h
    rw [List.map_cons, lookup_cons_eq]
    by_cases hsa : s = a
    · rw [if_pos hsa]
    · rw [if_neg hsa]
      refine ih ?_
      rcases List.mem_cons.mp h with h' | h'
      · exact absurd h' hsa
      · exact h'

theorem lookup_initResult (S : List String) (s : String) (hs : s ∈ S) :
    (initResult S).lookup s = some [] :=
  lookup_map_nil s (dedupKeepFirst S) ((mem_dedupKeepFirst s S).mpr hs)

theorem keys_initResult (S : List String) :
    (initResult S).map Prod.fst = dedupKeepFirst S := by
  simp [initResult, Function.comp_def]

/-! ### Registry facts -/

theorem registry_keywords_lowercase :
    ∀ p ∈ SECTOR_MAPPING, ∀ kw ∈ p.2.keywords, pyLower kw = kw := by decide

/-! ### Evaluation lemmas for the demo row -/

theorem demoRow_value_parses :
    pyDecimal (commaToDot (rowValueStr demoRow)) = some ((276 : ℚ) / 10 ^ 2) := rfl

theorem demoRow_extract : _extract_factor_from_row demoRow = some demoFactor := by
  have hvt : valueTail demoRow = some demoFactor := by
    unfold valueTail
    rw [demoRow_value_parses, Option.some_bind, if_neg (by norm_num)]
    have hv : (276 : ℚ) / 10 ^ 2 = 69 / 25 := by norm_num
    rw [hv]
    rfl
  unfold _extract_factor_from_row
  rw [if_neg (by decide), if_neg (by decide), if_neg (by decide)]
  exact hvt

theorem demo_parse_dup :
    parse_csv [demoRow] (some ["vehicles", "vehicles"]) =
      [("vehicles", [demoFactor, demoFactor])] := by
  have h0 : parse_csv [demoRow] (some ["vehicles", "vehicles"]) =
      parseStep ["vehicles", "vehicles"] (initResult ["vehicles", "vehicles"]) demoRow := rfl
  rw [h0]
  unfold parseStep
  rw [demoRow_extract]
  show processRow ["vehicles", "vehicles"] demoFactor (initResult ["vehicles", "vehicles"]) = _
  have hm : _matches_sector demoFactor "vehicles" = true := by decide
  rw [processRow_cons, if_pos hm, processRow_cons, if_pos hm]
  rfl

theorem demo_canonical : sectorCanonicalList [demoRow] "vehicles" = [demoFactor] := by
  have hm : _matches_sector demoFactor "vehicles" = true := by decide
  simp [sectorCanonicalList, demoRow_extract, List.filterMap_cons, List.filter_cons, hm]

/-! ### Claim theorems -/

/-- C1 (amended): for every row list and every duplicate-free requested
sector list `S`, the key list of `parse_csv rows (some S)` is exactly `S`,
each requested sector `s ∈ S` maps to exactly the ordered list of accepted
records matching `s` (so multi-sector records appear in every matching
list and zero-match sectors map to `[]`, never a missing key), and the
omitted `sectors` argument defaults to the registry's sector-id list.
The duplicate-free restriction is forced by
`parse_csv_duplicate_sectors_counterexample`. -/
theorem parse_csv_requested_sectors_spec (rows : List RawRow) (S : List String) (s : String)
    (hnd : S.Nodup) (hs : s ∈ S) :
    (parse_csv rows (some S)).map Prod.fst = S ∧
    (parse_csv rows (some S)).lookup s = some (sectorCanonicalList rows s) ∧
    parse_csv rows none = parse_csv rows (some (SECTOR_MAPPING.map Prod.fst)) := by
  refine ⟨?_, ?_, rfl⟩
  · show ((rows.foldl (parseStep S) (initResult S)).map Prod.fst) = S
    rw [keys_foldl, keys_initResult, dedupKeepFirst_of_nodup S hnd]
  · show (rows.foldl (parseStep S) (initResult S)).lookup s = _
    have h := lookup_foldl S s hnd hs rows (initResult S) [] (lookup_initResult S s hs)
    simpa using h

/-- C1 counterexample: with the duplicated request list
`["vehicles", "vehicles"]`, the vehicles list receives the single accepted
matching record twice, so it is not "exactly the ordered sequence of
accepted records matching the sector" that the claim demands for every
supplied list. -/
theorem parse_csv_duplicate_sectors_counterexample :
    (parse_csv [demoRow] (some ["vehicles", "vehicles"])).lookup "vehicles" ≠
      some (sectorCanonicalList [demoRow] "vehicles") := by
  have h1 : (parse_csv [demoRow] (some ["vehicles", "vehicles"])).lookup "vehicles" =
      some [demoFactor, demoFactor] := by rw [demo_parse_dup]; rfl
  rw [h1, demo_canonical]
  simp

/-- Witness for C1 at a concrete input. -/
theorem parse_csv_requested_sectors_spec_witness :
    ((["vehicles"] : List String).Nodup ∧ "vehicles" ∈ (["vehicles"] : List String)) ∧
    ((parse_csv [demoRow] (some ["vehicles"])).map Prod.fst = ["vehicles"] ∧
     (parse_csv [demoRow] (some ["vehicles"])).lookup "vehicles" =
       some (sectorCanonicalList [demoRow] "vehicles") ∧
     parse_csv [demoRow] none = parse_csv [demoRow] (some (SECTOR_MAPPING.map Prod.fst))) :=
  ⟨⟨by decide, by decide⟩,
   parse_csv_requested_sectors_spec [demoRow] ["vehicles"] "vehicles" (by decide) (by decide)⟩

/-- C2: the classifier returns true exactly when the lower-cased name
contains some registry keyword as a substring, or the lower-cased category
contains some lower-cased registry category fragment as a substring; with
empty keyword and category lists both disjuncts are vacuous, and the
function is total. -/
theorem matches_sector_spec (r : FactorRecord) (s : String) (d : SectorDef)
    (hd : SECTOR_MAPPING.lookup s = some d) :
    _matches_sector r s = true ↔
      (∃ kw ∈ d.keywords, strContains (pyLower r.name) kw = true) ∨
      (∃ c ∈ d.categories, strContains (pyLower r.category) (pyLower c) = true) := by
  have hkw : ∀ kw ∈ d.keywords, pyLower kw = kw := fun kw hkwm =>
    registry_keywords_lowercase (s, d) (lookup_mem SECTOR_MAPPING s d hd) kw hkwm
  unfold _matches_sector
  rw [hd]
  simp only [Bool.or_eq_true, List.any_eq_true]
  constructor
  · rintro (⟨kw, hmem, hc⟩ | ⟨c, hmem, hc⟩)
    · exact Or.inl ⟨kw, hmem, by rwa [hkw kw hmem] at hc⟩
    · exact Or.inr ⟨c, hmem, hc⟩
  · rintro (⟨kw, hmem, hc⟩ | ⟨c, hmem, hc⟩)
    · exact Or.inl ⟨kw, hmem, by rwa [hkw kw hmem]⟩
    · exact Or.inr ⟨c, hmem, hc⟩

/-- Witness for C2 at a concrete record and sector. -/
theorem matches_sector_spec_witness :
    SECTOR_MAPPING.lookup "vehicles" = some vehiclesDef ∧
    (_matches_sector demoFactor "vehicles" = true ↔
      (∃ kw ∈ vehiclesDef.keywords, strContains (pyLower demoFactor.name) kw = true) ∨
      (∃ c ∈ vehiclesDef.categories,
        strContains (pyLower demoFactor.category) (pyLower c) = true)) :=
  ⟨by decide, matches_sector_spec demoFactor "vehicles" vehiclesDef (by decide)⟩

/-- C3: a row whose trimmed location is non-empty, does not contain
"france" after lower-casing and is not "fr" is rejected outright; and for
a row that passes the name/value and status rules, a France-designating
(or empty) location lets extraction proceed to the value step, so
acceptance is decided solely by value parsing. -/
theorem location_filter_spec (row : RawRow) :
    (locationOk (rowLocation row) = false → _extract_factor_from_row row = none) ∧
    (rowName row ≠ "" → rowValueStr row ≠ "" →
      ¬(rowStatus row ≠ "" ∧ strContains (pyLower (rowStatus row)) "archivé" = true) →
      locationOk (rowLocation row) = true →
      _extract_factor_from_row row = valueTail row) := by
  constructor
  · intro h
    have h3 : rowLocation row ≠ "" ∧ strContains (pyLower (rowLocation row)) "france" = false ∧
        pyLower (rowLocation row) ≠ "fr" := by
      unfold locationOk at h
      simp only [Bool.or_eq_false_iff] at h
      obtain ⟨⟨h1, h2⟩, h4⟩ := h
      refine ⟨?_, h2, ?_⟩
      · intro he
        rw [he] at h1
        simp at h1
      · intro he
        rw [he] at h4
        simp at h4
    unfold _extract_factor_from_row
    by_cases h1 : rowName row = "" ∨ rowValueStr row = ""
    · rw [if_pos h1]
    · rw [if_neg h1]
      by_cases h2 : rowStatus row ≠ "" ∧ strContains (pyLower (rowStatus row)) "archivé" = true
      · rw [if_pos h2]
      · rw [if_neg h2, if_pos h3, if_pos (by rw [rowLocation_strip]; exact h3.1)]
  · intro hn hv hst hloc
    have hnv : ¬(rowName row = "" ∨ rowValueStr row = "") := by
      rintro (h | h)
      · exact hn h
      · exact hv h
    have hl3 : ¬(rowLocation row ≠ "" ∧ strContains (pyLower (rowLocation row)) "france" = false ∧
        pyLower (rowLocation row) ≠ "fr") := by
      rintro ⟨a1, a2, a3⟩
      unfold locationOk at hloc
      simp only [Bool.or_eq_true] at hloc
      rcases hloc with (hl | hl) | hl
      · exact a1 (by simpa using hl)
      · rw [hl] at a2
        exact Bool.noConfusion a2
      · exact a3 (by simpa using hl)
    unfold _extract_factor_from_row
    rw [if_neg hnv, if_neg hst, if_neg hl3]

/-- Witness for C3 at a concrete rejected row. -/
theorem location_filter_spec_witness :
    locationOk (rowLocation germanyRow) = false ∧
    _extract_factor_from_row germanyRow = none :=
  ⟨by decide, (location_filter_spec germanyRow).1 (by decide)⟩

/-- C4: the decimal comma is normalized to a period before parsing; parse
failure rejects the row; and every returned record carries the exactly
parsed rational value, which satisfies `0 < value ≤ 10000`. -/
theorem value_parsing_spec (row : RawRow) (r : FactorRecord) :
    (pyDecimal (commaToDot (rowValueStr row)) = none → _extract_factor_from_row row = none) ∧
    (_extract_factor_from_row row = some r →
      pyDecimal (commaToDot (rowValueStr row)) = some r.value ∧
        0 < r.value ∧ r.value ≤ 10000) := by
  constructor
  · intro h
    have hvt : valueTail row = none := by
      unfold valueTail
      rw [h, Option.none_bind]
    unfold _extract_factor_from_row
    rw [hvt]
    simp
  · intro h
    have hvt : valueTail row = some r := by
      unfold _extract_factor_from_row at h
      by_cases h1 : rowName row = "" ∨ rowValueStr row = ""
      · rw [if_pos h1] at h
        exact absurd h (by simp)
      · rw [if_neg h1] at h
        by_cases h2 : rowStatus row ≠ "" ∧ strContains (pyLower (rowStatus row)) "archivé" = true
        · rw [if_pos h2] at h
          exact absurd h (by simp)
        · rw [if_neg h2] at h
          by_cases h3 : rowLocation row ≠ "" ∧
              strContains (pyLower (rowLocation row)) "france" = false ∧
              pyLower (rowLocation row) ≠ "fr"
          · rw [if_pos h3] at h
            by_cases h4 : pyStrip (rowLocation row) ≠ ""
            · rw [if_pos h4] at h
              exact absurd h (by simp)
            · rw [if_neg h4] at h
              exact h
          · rw [if_neg h3] at h
            exact h
    unfold valueTail at hvt
    cases hpd : pyDecimal (commaToDot (rowValueStr row)) with
    | none =>
      rw [hpd, Option.none_bind] at hvt
      exact absurd hvt (by simp)
    | some v =>
      rw [hpd, Option.some_bind] at hvt
      by_cases hr : v ≤ 0 ∨ v > 10000
      · rw [if_pos hr] at hvt
        exact absurd hvt (by simp)
      · rw [if_neg hr] at hvt
        have hcongr := Option.some.inj hvt
        subst hcongr
        push_neg at hr
        exact ⟨rfl, hr.1, hr.2⟩

/-- Witness for C4 at a concrete accepted row. -/
theorem value_parsing_spec_witness :
    _extract_factor_from_row demoRow = some demoFactor ∧
    (pyDecimal (commaToDot (rowValueStr demoRow)) = some demoFactor.value ∧
      0 < demoFactor.value ∧ demoFactor.value ≤ 10000) :=
  ⟨demoRow_extract, (value_parsing_spec demoRow demoFactor).2 demoRow_extract⟩

/-- C5 (amended): when the response declares a Content-Length above the
configured maximum (and the status is not an HTTP error), `download_csv`
fails with the payload-too-large error before touching the body; the
actual body size is not checked, which is what the counterexample
records. -/
theorem download_declared_size_spec (resp : HttpResponse) (n : Nat)
    (hst : resp.status < 400) (hcl : resp.contentLength = some n) (hn : max_size < n) :
    download_csv resp = Except.error DownloadError.payloadTooLarge := by
  unfold download_csv
  rw [if_neg (Nat.not_le.mpr hst), hcl]
  show (if max_size < n then Except.error DownloadError.payloadTooLarge
      else Except.ok (latin1Decode resp.body)) = Except.error DownloadError.payloadTooLarge
  rw [if_pos hn]

/-- C5 counterexample: a 2xx response with no declared length whose actual
body exceeds the maximum size is fully decoded and returned, not rejected,
so the "declared or actual size" claim fails on the actual-size half. -/
theorem download_actual_size_counterexample :
    max_size < oversizedResponse.body.length ∧
    download_csv oversizedResponse ≠ Except.error DownloadError.payloadTooLarge := by
  constructor
  · show max_size < (List.replicate (max_size + 1) 65).length
    rw [List.length_replicate]
    exact Nat.lt_succ_self _
  · have h : download_csv oversizedResponse =
        Except.ok (latin1Decode oversizedResponse.body) := rfl
    rw [h]
    intro hcontra
    exact Except.noConfusion hcontra

/-- Witness for C5 (amended) at a concrete response. -/
theorem download_declared_size_spec_witness :
    max_size < max_size + 1 ∧
    download_csv ⟨200, some (max_size + 1), []⟩ = Except.error DownloadError.payloadTooLarge :=
  ⟨Nat.lt_succ_self _,
   download_declared_size_spec ⟨200, some (max_size + 1), []⟩ (max_size + 1)
     (by decide) rfl (Nat.lt_succ_self _)⟩

/-- C6: any row whose trimmed status contains "archivé" after
lower-casing is rejected by the validator, whatever the other fields
hold. -/
theorem archived_status_spec (row : RawRow)
    (h : strContains (pyLower (rowStatus row)) "archivé" = true) :
    _extract_factor_from_row row = none := by
  have hne : rowStatus row ≠ "" := by
    intro h0
    rw [h0] at h
    exact absurd h (by decide)
  unfold _extract_factor_from_row
  by_cases h1 : rowName row = "" ∨ rowValueStr row = ""
  · rw [if_pos h1]
  · rw [if_neg h1, if_pos ⟨hne, h⟩]

/-- Witness for C6 at a concrete archived row. -/
theorem archived_status_spec_witness :
    strContains (pyLower (rowStatus archivedRow)) "archivé" = true ∧
    _extract_factor_from_row archivedRow = none :=
  ⟨by decide, archived_status_spec archivedRow (by decide)⟩

/-- C7: a row the validator rejects contributes nothing: parsing a row
list with the rejected row present gives exactly the result of parsing
the list without it, so one bad row never aborts the parse (the validator
itself is a total function into `Option`). -/
theorem rejected_row_skipped_spec (row : RawRow) (pre post : List RawRow)
    (sectors : Option (List String)) (h : _extract_factor_from_row row = none) :
    parse_csv (pre ++ row :: post) sectors = parse_csv (pre ++ post) sectors := by
  simp only [parse_csv]
  rw [List.foldl_append, List.foldl_append, List.foldl_cons]
  congr 1
  unfold parseStep
  rw [h]

/-- Witness for C7 at a concrete rejected row. -/
theorem rejected_row_skipped_spec_witness :
    _extract_factor_from_row ([] : RawRow) = none ∧
    parse_csv ([] ++ ([] : RawRow) :: []) (some ["vehicles"]) =
      parse_csv ([] ++ ([] : List RawRow)) (some ["vehicles"]) :=
  ⟨by decide, rejected_row_skipped_spec [] [] [] (some ["vehicles"]) (by decide)⟩

/-- C8: when the download succeeds, the single-sector convenience form
returns exactly the full pipeline's list for that sector: the projection
of `parse_csv` on the one requested sector, which is the ordered list of
accepted records matching it. -/
theorem get_factors_for_sector_spec (reader : String → List RawRow) (resp : HttpResponse)
    (sector : String) (content : String) (h : download_csv resp = Except.ok content) :
    get_factors_for_sector reader resp sector =
      Except.ok (((parse_csv (reader content) (some [sector])).lookup sector).getD []) ∧
    get_factors_for_sector reader resp sector =
      Except.ok (sectorCanonicalList (reader content) sector) := by
  have hl : (parse_csv (reader content) (some [sector])).lookup sector =
      some (sectorCanonicalList (reader content) sector) := by
    have h0 := lookup_foldl [sector] sector (List.nodup_singleton sector)
      (List.mem_singleton_self sector) (reader content) (initResult [sector]) []
      (lookup_initResult [sector] sector (List.mem_singleton_self sector))
    simpa [parse_csv] using h0
  have hmap : get_factors_for_sector reader resp sector =
      Except.ok (((parse_csv (reader content) (some [sector])).lookup sector).getD []) := by
    unfold get_factors_for_sector
    rw [h]
    rfl
  refine ⟨hmap, ?_⟩
  rw [hmap, hl]
  rfl

/-- Witness for C8 at a concrete response and reader. -/
theorem get_factors_for_sector_spec_witness :
    download_csv emptyResponse = Except.ok "" ∧
    (get_factors_for_sector (fun _ => []) emptyResponse "vehicles" =
        Except.ok (((parse_csv [] (some ["vehicles"])).lookup "vehicles").getD []) ∧
      get_factors_for_sector (fun _ => []) emptyResponse "vehicles" =
        Except.ok (sectorCanonicalList [] "vehicles")) :=
  ⟨rfl, get_factors_for_sector_spec (fun _ => []) emptyResponse "vehicles" "" rfl⟩

/-- C9: `parse_csv` is deterministic — two invocations on equal input
text (row list) and equal requested sectors return equal classification
results, in content and order; the embedding is a pure function, so the
source's freedom from hidden state is captured by this congruence. -/
theorem parse_csv_deterministic (rows₁ rows₂ : List RawRow)
    (sectors₁ sectors₂ : Option (List String))
    (hr : rows₁ = rows₂) (hs : sectors₁ = sectors₂) :
    parse_csv rows₁ sectors₁ = parse_csv rows₂ sectors₂ := by
  rw [hr, hs]

/-- Witness for C9 at a concrete input. -/
theorem parse_csv_deterministic_witness :
    parse_csv [demoRow] (some ["food"]) = parse_csv [demoRow] (some ["food"]) :=
  parse_csv_deterministic [demoRow] [demoRow] (some ["food"]) (some ["food"]) rfl rfl

/-- C10: a requested sector id absent from the registry matches no
record, and still appears in the result as a key mapped to the empty
list; no error arises. -/
theorem unknown_sector_spec (rows : List RawRow) (S : List String) (s : String)
    (r : FactorRecord) (hs : s ∈ S) (hu : SECTOR_MAPPING.lookup s = none) :
    _matches_sector r s = false ∧ (parse_csv rows (some S)).lookup s = some [] := by
  have hm : ∀ f, _matches_sector f s = false := fun f => by
    unfold _matches_sector
    rw [hu]
  refine ⟨hm r, ?_⟩
  show (rows.foldl (parseStep S) (initResult S)).lookup s = some []
  rw [lookup_foldl_noMatch S s hm rows (initResult S), lookup_initResult S s hs]

/-- Witness for C10 at a concrete unknown sector id. -/
theorem unknown_sector_spec_witness :
    ("mystery" ∈ (["mystery"] : List String) ∧ SECTOR_MAPPING.lookup "mystery" = none) ∧
    (_matches_sector demoFactor "mystery" = false ∧
      (parse_csv [demoRow] (some ["mystery"])).lookup "mystery" = some []) :=
  ⟨⟨by decide, by decide⟩,
   unknown_sector_spec [demoRow] ["mystery"] "mystery" demoFactor (by decide) (by decide)⟩

end AdemeCsv
